import Mathlib

/-!
Verification of the claudecontroller supervisor core (`launch-manager.py` and the
plugin commands under `commands/`).  The Python source is shallowly embedded:
Python dicts become association lists with insertion-order semantics, byte
strings become lists of naturals, socket reads become explicit stream states,
and exceptions become `Except` values.  The theorems at the end of the file
settle the specification claims about this code.
-/

namespace ClaudeController

/-! ## Python dict model

Python dicts preserve insertion order; assignment to an existing key replaces
the value in place, `del` removes the (unique) key, and `get` returns the first
(only) binding.  Keys in the embedded code are always strings. -/

/-- Model of Python `d.get(k)` / `d[k]`: the first binding of `k`. -/
def dictGet {α : Type} (k : String) : List (String × α) → Option α
  | [] => none
  | (k', v) :: rest => if k' = k then some v else dictGet k rest

/-- Model of Python `d[k] = v`: replace in place when present, else append. -/
def dictInsert {α : Type} (k : String) (v : α) : List (String × α) → List (String × α)
  | [] => [(k, v)]
  | (k', v') :: rest =>
    if k' = k then (k, v) :: rest else (k', v') :: dictInsert k v rest

/-- Model of Python `del d[k]` on a dict (keys are unique, so removing every
binding of `k` coincides with removing the single one). -/
def dictRemove {α : Type} (k : String) (l : List (String × α)) : List (String × α) :=
  l.filter (fun p => ¬ p.1 = k)


/-! ## JSON values and responses

Responses in the source are Python dicts such as
`{'success': False, 'error': '...'}`; they are embedded as ordered association
lists of JSON values. -/

/-- JSON value, as produced by handlers and `json.dumps`. -/
inductive JVal where
  | jnull : JVal
  | jbool : Bool → JVal
  | jstr : String → JVal
  | jnum : Int → JVal
  | jarr : List JVal → JVal
  | jobj : List (String × JVal) → JVal

/-- A command response: an ordered mapping from string keys to JSON values. -/
def Resp : Type := List (String × JVal)

/-! ## Process table and manager state

`ProcessManager.__init__` (launch-manager.py:24-29) creates
`self.processes : Dict[str, Popen]` and `self.process_info : Dict[str, dict]`.
The termination timeout comes from
`self.config.get('process', {}).get('termination_timeout', 5)`
(launch-manager.py:298). -/

/-- An OS process handle (`subprocess.Popen`), identified by its pid. -/
structure Proc where
  pid : Nat
deriving DecidableEq, Repr

/-- The mutable state of `ProcessManager` that the process-table operations
touch: the handle map, the metadata map, and the configured termination
timeout. -/
structure Manager where
  processes : List (String × Proc)
  process_info : List (String × List (String × JVal))
  termination_timeout : Nat

/-- How the child process reacts to `stop_process`: it may exit within the
timeout, ignore SIGTERM until `wait` raises `TimeoutExpired`, or have
`terminate()` / `wait()` raise some other exception (e.g. the handle is gone). -/
inductive StopBehavior where
  | exitsInTime : StopBehavior
  | ignoresTerm : StopBehavior
  | raisesOnTerminate : String → StopBehavior
  | raisesOnWait : String → StopBehavior
deriving DecidableEq

/-- Observable calls `stop_process` makes on the `Popen` handle. -/
inductive StopAction where
  | terminate : StopAction
  | wait : Nat → StopAction
  | kill : StopAction
deriving DecidableEq

/-- Embedding of `ProcessManager.stop_process` (launch-manager.py:294-307):

    if name in self.processes:
        proc = self.processes[name]
        termination_timeout = self.config.get(...)('termination_timeout', 5)
        try:
            proc.terminate()
            proc.wait(timeout=termination_timeout)
        except subprocess.TimeoutExpired:
            proc.kill()
        except:
            pass
        finally:
            del self.processes[name]

The result is the new manager state together with the sequence of calls made on
the handle.  The `finally` block makes the deletion unconditional; the bare
`except: pass` swallows non-timeout exceptions, and `TimeoutExpired` escalates
to `kill()`.  `process_info` is never touched. -/
def stop_process (m : Manager) (beh : StopBehavior) (name : String) :
    Manager × List StopAction :=
  if (dictGet name m.processes).isSome then
    let acts : List StopAction :=
      match beh with
      | StopBehavior.exitsInTime => [StopAction.terminate, StopAction.wait m.termination_timeout]
      | StopBehavior.ignoresTerm =>
        [StopAction.terminate, StopAction.wait m.termination_timeout, StopAction.kill]
      | StopBehavior.raisesOnTerminate _ => [StopAction.terminate]
      | StopBehavior.raisesOnWait _ => [StopAction.terminate, StopAction.wait m.termination_timeout]
    ({ m with processes := dictRemove name m.processes }, acts)
  else (m, [])

/-! ## Command registry and dispatch

`handle_command` (launch-manager.py:309-326) looks the command up in
`self.commands`, invokes it (built-in bound methods and plugin free functions
are both, after normalising the Python calling convention, functions of the
manager state and the argument list), catches any exception and converts it to
a failure response carrying `str(e)`. -/

/-- A command handler: reads and updates the manager state, and either returns
a response or raises (models a Python exception as `Except.error` carrying
`str(e)`). -/
def Handler : Type := Manager → List String → Except String Resp × Manager

/-- The command registry `self.commands`. -/
def Registry : Type := List (String × Handler)

/-- Embedding of `ProcessManager.handle_command` (launch-manager.py:309-326). -/
def handle_command (reg : Registry) (m : Manager) (command : String)
    (args : List String) : Resp × Manager :=
  match dictGet command reg with
  | some f =>
    match f m args with
    | (Except.ok r, mres) => (r, mres)
    | (Except.error e, mres) =>
      ([("success", JVal.jbool false), ("error", JVal.jstr e)], mres)
  | none =>
    ([("success", JVal.jbool false), ("error", JVal.jstr ("Unknown command: " ++ command))], m)

/-- The names registered in the running server's registry: the five built-ins
from `_register_builtin_commands` (launch-manager.py:132-143) followed by the
thirteen plugin files under `commands/` (file stem, underscores replaced by
hyphens, launch-manager.py:152-176). -/
def serverCommandNames : List String :=
  ["status", "restart-manager", "shutdown", "list-commands", "help",
   "bash", "bash-status", "bash-stop", "bash-watch", "claude-amnesia-fix",
   "inspect-tasks", "pid", "runner", "runner-status", "streamfile",
   "todo-add", "todo-list", "tokens"]

/-! ## Request field extraction

`handle_client` (launch-manager.py:390-392) extracts
`command = request.get('command', '')` and `args = request.get('args', [])`
from the parsed JSON object.  Within the wire grammar of the spec (objects
whose `command` value is a string and whose `args` value is an array of
strings) the values are embedded as `RVal`. -/

/-- A JSON value that can appear as a field of a request object. -/
inductive RVal where
  | str : String → RVal
  | strs : List String → RVal
deriving DecidableEq

/-- Embedding of `request.get('command', '')` (launch-manager.py:391). -/
def extractCommand (obj : List (String × RVal)) : String :=
  match dictGet "command" obj with
  | some (RVal.str s) => s
  | _ => ""

/-- Embedding of `request.get('args', [])` (launch-manager.py:392). -/
def extractArgs (obj : List (String × RVal)) : List String :=
  match dictGet "args" obj with
  | some (RVal.strs l) => l
  | _ => []

/-! ## Registration of a process by the `bash` command

`commands/bash.py:98-106` stores the started process with plain dict
assignments; there is no presence check before the assignment. -/

/-- Embedding of the registration step of `commands/bash.py` (lines 98-106):
`manager.processes[process_name] = proc` followed by
`manager.process_info[process_name] = info`. -/
def bash_register (m : Manager) (process_name : String) (proc : Proc)
    (info : List (String × JVal)) : Manager :=
  { m with
    processes := dictInsert process_name proc m.processes,
    process_info := dictInsert process_name info m.process_info }

/-! ## Socket stream model

A connection carries a fixed sequence of incoming bytes (`data`) plus a
chunking schedule (`sched`) that says how many bytes each successive
`recv` call may return at most — this models the fact that a single
`socket.recv(n)` may return fewer than `n` bytes.  `recv` on an exhausted
stream returns the empty chunk, which the Python code treats as
"connection closed". -/

/-- State of one client connection as seen by the reading code. -/
structure Conn where
  data : List Nat
  sched : List Nat

/-- Model of `client_socket.recv(n)`: returns between 1 and `n` of the next
pending bytes (as limited by the schedule), or the empty chunk when the
stream is exhausted.  Each call consumes one schedule entry. -/
def recvConn (c : Conn) (n : Nat) : List Nat × Conn :=
  let cap : Nat :=
    match c.sched with
    | [] => n
    | s :: _ => max 1 (min s n)
  let k : Nat := min n (min cap c.data.length)
  (c.data.take k, ⟨c.data.drop k, c.sched.tail⟩)

/-- Model of `client_socket.recv(8, socket.MSG_PEEK)` (launch-manager.py:363):
up to 8 bytes of the pending data, without consuming them. -/
def peek8 (c : Conn) : List Nat := c.data.take 8

/-- Python `int.from_bytes(b, 'big')`. -/
def beBytes (l : List Nat) : Nat := l.foldl (fun acc d => acc * 256 + d) 0

/-- Python `n.to_bytes(k, 'big')` (the value is reduced modulo `256 ^ k`,
where the Python original would instead raise `OverflowError`; all uses in
the development stay below the bound). -/
def natToBe (k : Nat) (n : Nat) : List Nat :=
  match k with
  | 0 => []
  | j + 1 => natToBe j (n / 256) ++ [n % 256]

/-- Embedding of the exact-read loops of `handle_client`
(launch-manager.py:373-378 and 383-388):

    while len(buf) < n:
        chunk = client_socket.recv(...)
        if not chunk:
            raise ConnectionError(...)
        buf += chunk

`none` models the raised `ConnectionError`. -/
def readExactly (c : Conn) (n : Nat) : Option (List Nat × Conn) :=
  if h : n = 0 then some ([], c)
  else
    match recvConn c n with
    | (chunk, c1) =>
      if hc : chunk = [] then none
      else
        match readExactly c1 (n - chunk.length) with
        | some (rest, c2) => some (chunk ++ rest, c2)
        | none => none
termination_by n
decreasing_by
  have hlen : 0 < chunk.length := List.length_pos.mpr hc
  omega

/-- Embedding of the protocol-detection test of `handle_client`
(launch-manager.py:363-368): the connection commits to framed mode exactly
when the 8-byte peek returned a full 8 bytes and the big-endian value is
strictly between 0 and 10,000,000. -/
def commitsFramed (c : Conn) : Bool :=
  (peek8 c).length = 8 && decide (0 < beBytes (peek8 c)) &&
    decide (beBytes (peek8 c) < 10000000)

/-- Embedding of the framed-mode read path of `handle_client`
(launch-manager.py:369-388): consume the 8-byte length prefix with an
exact-read loop, then read exactly that many payload bytes with a second
exact-read loop. -/
def readFramed (c : Conn) : Option (List Nat) :=
  match readExactly c 8 with
  | none => none
  | some (lenBytes, c2) =>
    match readExactly c2 (beBytes lenBytes) with
    | none => none
    | some (payload, _) => some payload


/-! ## JSON wire codec

Requests on the wire are, per the spec (section 6), UTF-8 JSON objects
`\x7b"command": <string>, "args": [<string>, ...]\x7d`.  The client encodes a
request with Python `json.dumps` (default options, `ensure_ascii=True`, so
the payload is pure ASCII with `\uXXXX` escapes) and the server parses it
with `json.loads` (launch-manager.py:390).  `json.loads` is embedded here
restricted to that wire grammar: strings with the full JSON escape
repertoire (including surrogate pairs), arrays of strings, and one
top-level object mapping string keys to such values.  The member and item
loops are given explicit fuel, instantiated with the input length at the
top level, which bounds the number of loop iterations of the Python
original (each iteration consumes at least one input character). -/

/-- A parsed request, after `handle_client` extracts the two fields. -/
structure Request where
  command : String
  args : List String
deriving DecidableEq, Repr

/-- The opening brace character. -/
def lbrace : Char := Char.ofNat 123

/-- The closing brace character. -/
def rbrace : Char := Char.ofNat 125

/-- Lower-case hexadecimal digit, as produced by Python `'%04x'`. -/
def hexDig (d : Nat) : Char :=
  if d < 10 then Char.ofNat (48 + d) else Char.ofNat (87 + d)

/-- Four-digit lower-case hexadecimal rendering of `n < 65536`. -/
def hex4 (n : Nat) : List Char :=
  [hexDig (n / 4096 % 16), hexDig (n / 256 % 16), hexDig (n / 16 % 16), hexDig (n % 16)]

/-- Escaping of one character by `json.dumps` with `ensure_ascii=True`
(CPython `encoder.py`, `py_encode_basestring_ascii`): short escapes for the
backslash, the double quote and the common control characters, `\uXXXX`
for other control characters and all non-ASCII characters, and a surrogate
pair for characters beyond the basic multilingual plane. -/
def escapeChar (c : Char) : List Char :=
  if c = '\"' then ['\\', '\"']
  else if c = '\\' then ['\\', '\\']
  else if c.toNat = 8 then ['\\', 'b']
  else if c.toNat = 9 then ['\\', 't']
  else if c.toNat = 10 then ['\\', 'n']
  else if c.toNat = 12 then ['\\', 'f']
  else if c.toNat = 13 then ['\\', 'r']
  else if c.toNat < 32 then '\\' :: 'u' :: hex4 c.toNat
  else if c.toNat < 127 then [c]
  else if c.toNat < 65536 then '\\' :: 'u' :: hex4 c.toNat
  else
    '\\' :: 'u' :: hex4 (55296 + (c.toNat - 65536) / 1024) ++
      ('\\' :: 'u' :: hex4 (56320 + (c.toNat - 65536) % 1024))

/-- JSON rendering of one string, `json.dumps(s)`. -/
def serializeJString (s : String) : List Char :=
  '\"' :: ((s.data.map escapeChar).flatten ++ ['\"'])

/-- JSON rendering of a list of strings with the default `", "` separator,
`json.dumps(l)`. -/
def serializeStrList (l : List String) : List Char :=
  match l with
  | [] => ['[', ']']
  | s :: rest =>
    '[' :: (serializeJString s ++
      ((rest.map (fun t => ',' :: ' ' :: serializeJString t)).flatten ++ [']']))

/-- JSON rendering of a request object,
`json.dumps(dict(command=..., args=[...]))`, with the default `", "` and
`": "` separators. -/
def serializeRequestChars (r : Request) : List Char :=
  lbrace :: (serializeJString "command" ++ ':' :: ' ' :: serializeJString r.command ++
    ',' :: ' ' :: serializeJString "args" ++ ':' :: ' ' :: serializeStrList r.args ++ [rbrace])

/-- UTF-8 bytes of the rendered request (the rendering is pure ASCII, so
UTF-8 encoding is the character code of each character). -/
def serializeRequestBytes (r : Request) : List Nat :=
  (serializeRequestChars r).map Char.toNat

/-- JSON whitespace skipping. -/
def skipWs (l : List Char) : List Char :=
  match l with
  | c :: rest =>
    if c = ' ' ∨ c = Char.ofNat 9 ∨ c = Char.ofNat 10 ∨ c = Char.ofNat 13 then skipWs rest
    else c :: rest
  | [] => []

/-- The two-character JSON escapes accepted after a backslash. -/
def simpleEsc (c : Char) : Option Char :=
  if c = '\"' then some '\"'
  else if c = '\\' then some '\\'
  else if c = '/' then some '/'
  else if c = 'b' then some (Char.ofNat 8)
  else if c = 'f' then some (Char.ofNat 12)
  else if c = 'n' then some (Char.ofNat 10)
  else if c = 'r' then some (Char.ofNat 13)
  else if c = 't' then some (Char.ofNat 9)
  else none

/-- Value of one hexadecimal digit (either case). -/
def hexVal (c : Char) : Option Nat :=
  if 48 ≤ c.toNat ∧ c.toNat ≤ 57 then some (c.toNat - 48)
  else if 97 ≤ c.toNat ∧ c.toNat ≤ 102 then some (c.toNat - 87)
  else if 65 ≤ c.toNat ∧ c.toNat ≤ 70 then some (c.toNat - 55)
  else none

/-- Value of a four-digit hexadecimal escape. -/
def hex4Val (a b c d : Char) : Option Nat :=
  match hexVal a, hexVal b, hexVal c, hexVal d with
  | some x, some y, some z, some w => some (((x * 16 + y) * 16 + z) * 16 + w)
  | _, _, _, _ => none

/-- After a high surrogate `\uXXXX` escape of value `n`, the input must
continue with a low surrogate escape; the pair is combined into one
character. -/
def decodeLowSurrogate (n : Nat) (rest3 : List Char) : Option (Char × List Char) :=
  match rest3 with
  | b1 :: u1 :: g1 :: g2 :: g3 :: g4 :: rest4 =>
    if b1 = '\\' ∧ u1 = 'u' then
      match hex4Val g1 g2 g3 g4 with
      | some msur =>
        if 56320 ≤ msur ∧ msur ≤ 57343 then
          some (Char.ofNat (65536 + (n - 55296) * 1024 + (msur - 56320)), rest4)
        else none
      | none => none
    else none
  | _ => none

/-- Interpretation of the value of a `\uXXXX` escape: a high surrogate
starts a surrogate pair, a lone low surrogate is rejected (Lean characters
are Unicode scalar values, which cannot carry the lone surrogate Python
would keep), anything else is the character itself. -/
def decodeUEscVal (n : Nat) (rest3 : List Char) : Option (Char × List Char) :=
  if 55296 ≤ n ∧ n ≤ 56319 then decodeLowSurrogate n rest3
  else if 56320 ≤ n ∧ n ≤ 57343 then none
  else some (Char.ofNat n, rest3)

/-- Decoding of a `\uXXXX` escape, positioned after the `\u`: yields the
decoded character and the rest of the input. -/
def decodeUEsc (l : List Char) : Option (Char × List Char) :=
  match l with
  | h1 :: h2 :: h3 :: h4 :: rest3 =>
    match hex4Val h1 h2 h3 h4 with
    | none => none
    | some n => decodeUEscVal n rest3
  | _ => none

/-- Body of a JSON string after the opening quote: the decoded characters
and the input following the closing quote, handling the short escapes and
`\uXXXX` escapes as `json.loads` does.  The fuel spends one unit per
decoded character; callers instantiate it from the remaining input length,
which always suffices. -/
def parseStringBody (fuel : Nat) (l : List Char) : Option (List Char × List Char) :=
  match fuel with
  | 0 => none
  | f + 1 =>
    match l with
    | [] => none
    | c :: rest =>
      if c = '\"' then some ([], rest)
      else if c = '\\' then
        match rest with
        | [] => none
        | e :: rest2 =>
          if e = 'u' then
            match decodeUEsc rest2 with
            | some (ch, rest3) =>
              match parseStringBody f rest3 with
              | some (s, r) => some (ch :: s, r)
              | none => none
            | none => none
          else
            match simpleEsc e with
            | some ec =>
              match parseStringBody f rest2 with
              | some (s, r) => some (ec :: s, r)
              | none => none
            | none => none
      else if c.toNat < 32 then none
      else
        match parseStringBody f rest with
        | some (s, r) => some (c :: s, r)
        | none => none

/-- A JSON string: an opening quote followed by a string body.  The body
fuel, one unit per decoded character, is instantiated from the remaining
input length, which always suffices since every decoded character consumes
at least one input character. -/
def parseJString (l : List Char) : Option (String × List Char) :=
  match l with
  | c :: rest =>
    if c = '\"' then
      match parseStringBody (rest.length + 1) rest with
      | some (s, r) => some (String.mk s, r)
      | none => none
    else none
  | [] => none

/-- Items of a JSON array of strings, positioned at the first item; the
fuel bounds the number of loop iterations. -/
def parseStrListItems (fuel : Nat) (l : List Char) : Option (List String × List Char) :=
  match fuel with
  | 0 => none
  | f + 1 =>
    match parseJString l with
    | none => none
    | some (s, r) =>
      match skipWs r with
      | c :: r2 =>
        if c = ',' then
          match parseStrListItems f (skipWs r2) with
          | some (ss, r3) => some (s :: ss, r3)
          | none => none
        else if c = ']' then some ([s], r2)
        else none
      | [] => none

/-- A JSON array of strings. -/
def parseStrList (fuel : Nat) (l : List Char) : Option (List String × List Char) :=
  match l with
  | c :: r =>
    if c = '[' then
      match skipWs r with
      | c2 :: _ =>
        if c2 = ']' then some ([], (skipWs r).tail)
        else parseStrListItems fuel (skipWs r)
      | [] => none
    else none
  | [] => none

/-- A JSON value of the request wire grammar: a string or an array of
strings. -/
def parseRVal (fuel : Nat) (l : List Char) : Option (RVal × List Char) :=
  match l with
  | c :: _ =>
    if c = '\"' then
      match parseJString l with
      | some (s, r) => some (RVal.str s, r)
      | none => none
    else if c = '[' then
      match parseStrList fuel l with
      | some (ss, r) => some (RVal.strs ss, r)
      | none => none
    else none
  | [] => none

/-- Members of a JSON object, positioned at the first key; the fuel bounds
the number of loop iterations. -/
def parseMembers (fuel : Nat) (l : List Char) : Option (List (String × RVal) × List Char) :=
  match fuel with
  | 0 => none
  | f + 1 =>
    match parseJString l with
    | none => none
    | some (k, r1) =>
      match skipWs r1 with
      | c :: r2 =>
        if c = ':' then
          match parseRVal f (skipWs r2) with
          | none => none
          | some (v, r3) =>
            match skipWs r3 with
            | c2 :: r4 =>
              if c2 = ',' then
                match parseMembers f (skipWs r4) with
                | some (ms, r5) => some ((k, v) :: ms, r5)
                | none => none
              else if c2 = rbrace then some ([(k, v)], r4)
              else none
            | [] => none
        else none
      | [] => none

/-- Embedding of `json.loads` on the request wire grammar: one top-level
object, fully consumed up to trailing whitespace. -/
def parseTopObject (l : List Char) : Option (List (String × RVal)) :=
  match skipWs l with
  | c :: r =>
    if c = lbrace then
      match skipWs r with
      | c2 :: r2 =>
        if c2 = rbrace then
          if (skipWs r2).isEmpty then some [] else none
        else
          match parseMembers l.length (skipWs r) with
          | some (ms, rest) => if (skipWs rest).isEmpty then some ms else none
          | none => none
      | [] => none
    else none
  | [] => none

/-- Field extraction applied to a parsed request object
(launch-manager.py:391-392). -/
def reqOfObj (obj : List (String × RVal)) : Request :=
  { command := extractCommand obj, args := extractArgs obj }

/-- UTF-8 decoding (`bytes.decode()`), restricted to the ASCII payloads the
codec produces. -/
def asciiDecode (l : List Nat) : Option (List Char) :=
  if l.all (fun b => b < 128) then some (l.map Char.ofNat) else none

/-- Parse a rendered request and extract its fields. -/
def parseRequestChars (l : List Char) : Option Request :=
  match parseTopObject l with
  | some obj => some (reqOfObj obj)
  | none => none

/-- The parsing step of `handle_client` (launch-manager.py:390-392):
decode the payload bytes, parse them as JSON, extract the two request
fields. -/
def parseRequestBytes (bs : List Nat) : Option Request :=
  match asciiDecode bs with
  | some cs => parseRequestChars cs
  | none => none

/-- The framed encoding of a request (spec section 4.3; the response
direction of the same framing is launch-manager.py:402-403): the 8-byte
big-endian length of the UTF-8 JSON payload, then the payload. -/
def encodeFramedRequest (r : Request) : List Nat :=
  natToBe 8 (serializeRequestBytes r).length ++ serializeRequestBytes r

/-- The framed decoding path of `handle_client` (launch-manager.py:360-392):
detect framed mode from the 8-byte peek, consume the prefix, read exactly
the announced number of payload bytes, then parse the payload. -/
def decodeFramedRequest (c : Conn) : Option Request :=
  if commitsFramed c then
    match readFramed c with
    | some payload => parseRequestBytes payload
    | none => none
  else none

/-! ## Concrete instances used by witnesses -/

/-- A manager with an empty process table. -/
def exManager0 : Manager := ⟨[], [], 5⟩

/-- A manager holding one registered process with metadata. -/
def exManagerN : Manager := ⟨[("n", ⟨42⟩)], [("n", [("type", JVal.jstr "bash")])], 5⟩

/-- A handler that always succeeds. -/
def exHandlerOk : Handler := fun m _ => (Except.ok [("success", JVal.jbool true)], m)

/-- A handler that raises an exception with description `boom`. -/
def exFailingHandler : Handler := fun m _ => (Except.error "boom", m)

/-- A registry carrying exactly the running server's command names. -/
def exRegistryFull : Registry := serverCommandNames.map (fun n => (n, exHandlerOk))

/-! ## Properties of the dict and stream embeddings -/

theorem dictGet_insert_self {α : Type} (k : String) (v : α) (l : List (String × α)) :
    dictGet k (dictInsert k v l) = some v := by
  induction l with
  | nil => simp [dictGet, dictInsert]
  | cons p rest ih =>
    obtain ⟨k', v'⟩ := p
    by_cases h : k' = k <;> simp [dictGet, dictInsert, h, ih]

theorem dictGet_remove_self {α : Type} (k : String) (l : List (String × α)) :
    dictGet k (dictRemove k l) = none := by
  induction l with
  | nil => simp [dictGet, dictRemove]
  | cons p rest ih =>
    obtain ⟨k', v'⟩ := p
    by_cases h : k' = k
    · simpa [dictRemove, h] using ih
    · simpa [dictRemove, dictGet, h] using ih

theorem recvConn_data (c : Conn) (n : Nat) :
    ∃ k, recvConn c n = (c.data.take k, ⟨c.data.drop k, c.sched.tail⟩) ∧
      k ≤ n ∧ k ≤ c.data.length ∧ (1 ≤ n → 1 ≤ c.data.length → 1 ≤ k) := by
  refine ⟨min n (min (match c.sched with | [] => n | s :: _ => max 1 (min s n)) c.data.length),
    rfl, ?_, ?_, ?_⟩
  · exact Nat.min_le_left _ _
  · exact le_trans (Nat.min_le_right _ _) (Nat.min_le_right _ _)
  · intro hn hd
    rcases hs : c.sched with _ | ⟨s, rest⟩ <;> simp [hs] <;> omega

theorem readExactly_spec (n : Nat) : ∀ c : Conn, n ≤ c.data.length →
    ∃ c2, readExactly c n = some (c.data.take n, c2) ∧ c2.data = c.data.drop n := by
  induction n using Nat.strong_induction_on with
  | _ n ih =>
    intro c hle
    by_cases h0 : n = 0
    · subst h0
      exact ⟨c, by rw [readExactly.eq_def]; simp, by simp⟩
    · obtain ⟨k, hrec, hkn, hkd, hk1⟩ := recvConn_data c n
      have hk : 1 ≤ k := hk1 (by omega) (by omega)
      have hklen : (c.data.take k).length = k := by
        rw [List.length_take]; omega
      have hne : c.data.take k ≠ [] := by
        apply List.ne_nil_of_length_pos
        omega
      have hrest : n - k ≤ (c.data.drop k).length := by
        rw [List.length_drop]
        omega
      obtain ⟨c2, hrd, hc2⟩ := ih (n - k) (by omega) ⟨c.data.drop k, c.sched.tail⟩ hrest
      refine ⟨c2, ?_, ?_⟩
      · rw [readExactly.eq_def]
        simp only [h0, dite_false, hrec, hne, dite_eq_ite, if_false, dif_neg,
          not_false_iff]
        rw [hklen]
        simp only at hrd
        rw [hrd]
        have htake : c.data.take k ++ (c.data.drop k).take (n - k) = c.data.take n := by
          have hsum : k + (n - k) = n := by omega
          rw [← List.take_add, hsum]
        simp [htake]
      · rw [hc2]
        simp only [List.drop_drop]
        congr 1
        omega

theorem readExactly_closed (n : Nat) : ∀ c : Conn, c.data.length < n →
    readExactly c n = none := by
  induction n using Nat.strong_induction_on with
  | _ n ih =>
    intro c hlt
    have h0 : n ≠ 0 := by omega
    obtain ⟨k, hrec, hkn, hkd, hk1⟩ := recvConn_data c n
    rw [readExactly.eq_def]
    simp only [h0, dite_false, hrec]
    by_cases hemp : c.data.take k = []
    · rw [dif_pos hemp]
    · rw [dif_neg hemp]
      have hk : 1 ≤ k := by
        by_contra hcon
        have hzero : k = 0 := by omega
        simp [hzero] at hemp
      have hklen : (c.data.take k).length = k := by
        rw [List.length_take]; omega
      have hdrop : (c.data.drop k).length < n - k := by
        rw [List.length_drop]; omega
      rw [hklen, ih (n - k) (by omega) ⟨c.data.drop k, c.sched.tail⟩ hdrop]

theorem natToBe_length (k n : Nat) : (natToBe k n).length = k := by
  induction k generalizing n with
  | zero => simp [natToBe]
  | succ j ih => simp [natToBe, ih]

theorem beBytes_append_singleton (l : List Nat) (d : Nat) :
    beBytes (l ++ [d]) = beBytes l * 256 + d := by
  simp [beBytes, List.foldl_append]

theorem beBytes_natToBe (k n : Nat) : beBytes (natToBe k n) = n % 256 ^ k := by
  induction k generalizing n with
  | zero => simp [natToBe, beBytes, Nat.mod_one]
  | succ j ih =>
    rw [natToBe, beBytes_append_singleton, ih]
    have h256 : (256 : Nat) ^ (j + 1) = 256 * 256 ^ j := by ring
    rw [h256, Nat.mod_mul]
    ring

/-! ## Round trip of the string codec -/

theorem char_toNat_bounds (c : Char) :
    c.toNat < 1114112 ∧ ¬ (55296 ≤ c.toNat ∧ c.toNat ≤ 57343) := by
  have h := c.valid
  simp only [UInt32.isValidChar, Nat.isValidChar] at h
  simp only [Char.toNat]
  omega

theorem charToNat_ofNat_valid (n : Nat) (h : n.isValidChar) : (Char.ofNat n).toNat = n := by
  simp [Char.ofNat, h, Char.ofNatAux, Char.toNat, UInt32.toNat]

theorem hexVal_hexDig : ∀ d : Nat, d < 16 → hexVal (hexDig d) = some d := by decide

theorem hexDig_ascii : ∀ d : Nat, d < 16 → (hexDig d).toNat < 128 := by decide

theorem hex4Val_hex4 (n : Nat) (h : n < 65536) :
    hex4Val (hexDig (n / 4096 % 16)) (hexDig (n / 256 % 16))
      (hexDig (n / 16 % 16)) (hexDig (n % 16)) = some n := by
  have h1 := hexVal_hexDig (n / 4096 % 16) (Nat.mod_lt _ (by norm_num))
  have h2 := hexVal_hexDig (n / 256 % 16) (Nat.mod_lt _ (by norm_num))
  have h3 := hexVal_hexDig (n / 16 % 16) (Nat.mod_lt _ (by norm_num))
  have h4 := hexVal_hexDig (n % 16) (Nat.mod_lt _ (by norm_num))
  simp only [hex4Val, h1, h2, h3, h4, Option.some.injEq]
  omega

theorem parseStringBody_simpleEsc (f : Nat) (e ec : Char) (rest : List Char)
    (hs : simpleEsc e = some ec) (hu : e ≠ 'u') :
    parseStringBody (f + 1) ('\\' :: e :: rest) =
      match parseStringBody f rest with
      | some (s, r) => some (ec :: s, r)
      | none => none := by
  simp only [parseStringBody, if_true, hu, hs]
  simp

theorem decodeUEsc_cons_val (a b c d : Char) (k : Nat) (rest : List Char)
    (h : hex4Val a b c d = some k) :
    decodeUEsc (a :: b :: c :: d :: rest) = decodeUEscVal k rest := by
  simp only [decodeUEsc, h]

theorem decodeUEscVal_scalar (k : Nat) (rest : List Char)
    (hsur : ¬ (55296 ≤ k ∧ k ≤ 57343)) :
    decodeUEscVal k rest = some (Char.ofNat k, rest) := by
  simp only [decodeUEscVal]
  rw [if_neg (by omega : ¬ (55296 ≤ k ∧ k ≤ 56319)),
    if_neg (by omega : ¬ (56320 ≤ k ∧ k ≤ 57343))]

theorem decodeUEscVal_highSur (k : Nat) (rest : List Char)
    (hk : 55296 ≤ k ∧ k ≤ 56319) :
    decodeUEscVal k rest = decodeLowSurrogate k rest := by
  simp only [decodeUEscVal]
  rw [if_pos hk]

theorem decodeLowSurrogate_spec (k m : Nat) (g1 g2 g3 g4 : Char) (rest : List Char)
    (hg : hex4Val g1 g2 g3 g4 = some m) (hm : 56320 ≤ m ∧ m ≤ 57343) :
    decodeLowSurrogate k ('\\' :: 'u' :: g1 :: g2 :: g3 :: g4 :: rest) =
      some (Char.ofNat (65536 + (k - 55296) * 1024 + (m - 56320)), rest) := by
  simp only [decodeLowSurrogate, and_self, if_true, hg]
  rw [if_pos hm]

theorem decodeUEsc_hex4 (n : Nat) (rest : List Char)
    (hlt : n < 65536) (hsur : ¬ (55296 ≤ n ∧ n ≤ 57343)) :
    decodeUEsc (hex4 n ++ rest) = some (Char.ofNat n, rest) := by
  rw [hex4]
  simp only [List.cons_append, List.nil_append]
  rw [decodeUEsc_cons_val _ _ _ _ n rest (hex4Val_hex4 n hlt)]
  exact decodeUEscVal_scalar n rest hsur

theorem decodeUEsc_surrogate (n : Nat) (rest : List Char)
    (hge : 65536 ≤ n) (hlt : n < 1114112) :
    decodeUEsc (hex4 (55296 + (n - 65536) / 1024) ++
        ('\\' :: 'u' :: hex4 (56320 + (n - 65536) % 1024) ++ rest)) =
      some (Char.ofNat n, rest) := by
  have hdq : (n - 65536) / 1024 < 1024 := by omega
  rw [hex4, hex4]
  simp only [List.cons_append, List.nil_append]
  rw [decodeUEsc_cons_val _ _ _ _ (55296 + (n - 65536) / 1024) _
    (hex4Val_hex4 (55296 + (n - 65536) / 1024) (by omega))]
  rw [decodeUEscVal_highSur (55296 + (n - 65536) / 1024) _ (by omega)]
  rw [decodeLowSurrogate_spec (55296 + (n - 65536) / 1024) (56320 + (n - 65536) % 1024)
    _ _ _ _ rest (hex4Val_hex4 (56320 + (n - 65536) % 1024) (by omega)) (by omega)]
  have harith : 65536 + (55296 + (n - 65536) / 1024 - 55296) * 1024 +
      (56320 + (n - 65536) % 1024 - 56320) = n := by
    have hd := Nat.div_add_mod (n - 65536) 1024
    omega
  rw [harith]

theorem parseStringBody_uEscape (f : Nat) (x rest : List Char) (ch : Char)
    (hd : decodeUEsc x = some (ch, rest)) :
    parseStringBody (f + 1) ('\\' :: 'u' :: x) =
      match parseStringBody f rest with
      | some (s, r) => some (ch :: s, r)
      | none => none := by
  simp only [parseStringBody, if_true, hd]
  simp

theorem parseStringBody_literal (f : Nat) (c : Char) (rest : List Char)
    (hq : c ≠ '\"') (hb : c ≠ '\\') (hc : 32 ≤ c.toNat) :
    parseStringBody (f + 1) (c :: rest) =
      match parseStringBody f rest with
      | some (s, r) => some (c :: s, r)
      | none => none := by
  simp only [parseStringBody]
  rw [if_neg hq, if_neg hb, if_neg (by omega : ¬ c.toNat < 32)]

theorem parseStringBody_escape (f : Nat) (c : Char) (rest : List Char) :
    parseStringBody (f + 1) (escapeChar c ++ rest) =
      match parseStringBody f rest with
      | some (s, r) => some (c :: s, r)
      | none => none := by
  by_cases hq : c = '\"'
  · subst hq
    rw [show escapeChar '\"' = ['\\', '\"'] from rfl]
    exact parseStringBody_simpleEsc f '\"' '\"' rest rfl (by decide)
  by_cases hb : c = '\\'
  · subst hb
    rw [show escapeChar '\\' = ['\\', '\\'] from rfl]
    exact parseStringBody_simpleEsc f '\\' '\\' rest rfl (by decide)
  by_cases h8 : c.toNat = 8
  · rw [show escapeChar c = ['\\', 'b'] from by simp [escapeChar, hq, hb, h8]]
    have hc : c = Char.ofNat 8 := by rw [← h8, Char.ofNat_toNat]
    rw [hc]
    exact parseStringBody_simpleEsc f 'b' (Char.ofNat 8) rest rfl (by decide)
  by_cases h9 : c.toNat = 9
  · rw [show escapeChar c = ['\\', 't'] from by simp [escapeChar, hq, hb, h8, h9]]
    have hc : c = Char.ofNat 9 := by rw [← h9, Char.ofNat_toNat]
    rw [hc]
    exact parseStringBody_simpleEsc f 't' (Char.ofNat 9) rest rfl (by decide)
  by_cases h10 : c.toNat = 10
  · rw [show escapeChar c = ['\\', 'n'] from by simp [escapeChar, hq, hb, h8, h9, h10]]
    have hc : c = Char.ofNat 10 := by rw [← h10, Char.ofNat_toNat]
    rw [hc]
    exact parseStringBody_simpleEsc f 'n' (Char.ofNat 10) rest rfl (by decide)
  by_cases h12 : c.toNat = 12
  · rw [show escapeChar c = ['\\', 'f'] from by simp [escapeChar, hq, hb, h8, h9, h10, h12]]
    have hc : c = Char.ofNat 12 := by rw [← h12, Char.ofNat_toNat]
    rw [hc]
    exact parseStringBody_simpleEsc f 'f' (Char.ofNat 12) rest rfl (by decide)
  by_cases h13 : c.toNat = 13
  · rw [show escapeChar c = ['\\', 'r'] from by
      simp [escapeChar, hq, hb, h8, h9, h10, h12, h13]]
    have hc : c = Char.ofNat 13 := by rw [← h13, Char.ofNat_toNat]
    rw [hc]
    exact parseStringBody_simpleEsc f 'r' (Char.ofNat 13) rest rfl (by decide)
  by_cases hctl : c.toNat < 32
  · rw [show escapeChar c = '\\' :: 'u' :: hex4 c.toNat from by
      simp [escapeChar, hq, hb, h8, h9, h10, h12, h13, hctl]]
    rw [show ('\\' :: 'u' :: hex4 c.toNat) ++ rest = '\\' :: 'u' :: (hex4 c.toNat ++ rest) from
      rfl]
    rw [parseStringBody_uEscape f (hex4 c.toNat ++ rest) rest (Char.ofNat c.toNat)
      (decodeUEsc_hex4 c.toNat rest (by omega) (by omega))]
    rw [Char.ofNat_toNat]
  by_cases hprint : c.toNat < 127
  · rw [show escapeChar c = [c] from by
      simp [escapeChar, hq, hb, h8, h9, h10, h12, h13, hctl, hprint]]
    exact parseStringBody_literal f c rest hq hb (by omega)
  by_cases hbmp : c.toNat < 65536
  · rw [show escapeChar c = '\\' :: 'u' :: hex4 c.toNat from by
      simp [escapeChar, hq, hb, h8, h9, h10, h12, h13, hctl, hprint, hbmp]]
    have hns := (char_toNat_bounds c).2
    rw [show ('\\' :: 'u' :: hex4 c.toNat) ++ rest = '\\' :: 'u' :: (hex4 c.toNat ++ rest) from
      rfl]
    rw [parseStringBody_uEscape f (hex4 c.toNat ++ rest) rest (Char.ofNat c.toNat)
      (decodeUEsc_hex4 c.toNat rest hbmp (by omega))]
    rw [Char.ofNat_toNat]
  · have hbig : 65536 ≤ c.toNat := by omega
    have hub := (char_toNat_bounds c).1
    rw [show escapeChar c = '\\' :: 'u' :: hex4 (55296 + (c.toNat - 65536) / 1024) ++
        ('\\' :: 'u' :: hex4 (56320 + (c.toNat - 65536) % 1024)) from by
      simp [escapeChar, hq, hb, h8, h9, h10, h12, h13, hctl, hprint, hbmp]]
    rw [show ('\\' :: 'u' :: hex4 (55296 + (c.toNat - 65536) / 1024) ++
        ('\\' :: 'u' :: hex4 (56320 + (c.toNat - 65536) % 1024))) ++ rest =
        '\\' :: 'u' :: (hex4 (55296 + (c.toNat - 65536) / 1024) ++
          ('\\' :: 'u' :: hex4 (56320 + (c.toNat - 65536) % 1024) ++ rest)) from by
      simp]
    rw [parseStringBody_uEscape f _ rest (Char.ofNat c.toNat)
      (decodeUEsc_surrogate c.toNat rest hbig hub)]
    rw [Char.ofNat_toNat]

set_option maxHeartbeats 1000000 in
theorem escapeChar_length_pos (c : Char) : 1 ≤ (escapeChar c).length := by
  unfold escapeChar
  split_ifs <;> simp [hex4]

theorem flatten_escape_length (cs : List Char) :
    cs.length ≤ ((cs.map escapeChar).flatten).length := by
  induction cs with
  | nil => simp
  | cons c cs ih =>
    simp only [List.map_cons, List.flatten_cons, List.length_append, List.length_cons]
    have := escapeChar_length_pos c
    omega

theorem parseStringBody_flat (cs : List Char) : ∀ (f : Nat) (rest : List Char),
    cs.length < f →
    parseStringBody f ((cs.map escapeChar).flatten ++ '\"' :: rest) = some (cs, rest) := by
  induction cs with
  | nil =>
    intro f rest hf
    obtain ⟨g, rfl⟩ : ∃ g, f = g + 1 := ⟨f - 1, by omega⟩
    simp [parseStringBody]
  | cons c cs ih =>
    intro f rest hf
    obtain ⟨g, rfl⟩ : ∃ g, f = g + 1 := ⟨f - 1, by omega⟩
    simp only [List.map_cons, List.flatten_cons, List.append_assoc]
    rw [parseStringBody_escape]
    rw [ih g rest (by simpa using hf)]

theorem parseJString_ser (s : String) (rest : List Char) :
    parseJString (serializeJString s ++ rest) = some (s, rest) := by
  have hmk : String.mk s.data = s := by rcases s with ⟨d⟩; rfl
  have hlen : s.data.length <
      ((s.data.map escapeChar).flatten ++ '\"' :: rest).length + 1 := by
    have := flatten_escape_length s.data
    simp only [List.length_append, List.length_cons]
    omega
  simp only [serializeJString, List.cons_append, List.append_assoc, List.singleton_append,
    List.nil_append]
  simp only [parseJString, if_true]
  rw [parseStringBody_flat s.data _ rest hlen]

theorem skipWs_not_ws (c : Char) (l : List Char)
    (h : ¬ (c = ' ' ∨ c = Char.ofNat 9 ∨ c = Char.ofNat 10 ∨ c = Char.ofNat 13)) :
    skipWs (c :: l) = c :: l := by
  rw [skipWs, if_neg h]

theorem skipWs_space (l : List Char) : skipWs (' ' :: l) = skipWs l := by
  rw [skipWs, if_pos (Or.inl rfl)]

theorem skipWs_ser (u : String) (x : List Char) :
    skipWs (serializeJString u ++ x) = serializeJString u ++ x := by
  simp only [serializeJString, List.cons_append]
  rw [skipWs_not_ws '\"' _ (by decide)]

theorem parseStrListItems_ser (t : List String) : ∀ (f : Nat) (s : String) (rest : List Char),
    t.length < f →
    parseStrListItems f (serializeJString s ++
      ((t.map (fun v => ',' :: ' ' :: serializeJString v)).flatten ++ ']' :: rest)) =
      some (s :: t, rest) := by
  induction t with
  | nil =>
    intro f s rest hf
    obtain ⟨g, rfl⟩ : ∃ g, f = g + 1 := ⟨f - 1, by omega⟩
    simp only [List.map_nil, List.flatten_nil, List.nil_append]
    simp only [parseStrListItems, parseJString_ser s]
    rw [skipWs_not_ws ']' rest (by decide)]
    simp
  | cons u t ih =>
    intro f s rest hf
    obtain ⟨g, rfl⟩ : ∃ g, f = g + 1 := ⟨f - 1, by omega⟩
    have hZ : ((u :: t).map (fun v => ',' :: ' ' :: serializeJString v)).flatten ++ ']' :: rest
        = ',' :: ' ' :: (serializeJString u ++
            ((t.map (fun v => ',' :: ' ' :: serializeJString v)).flatten ++ ']' :: rest)) := by
      simp [List.append_assoc]
    rw [hZ]
    simp only [parseStrListItems, parseJString_ser s]
    rw [skipWs_not_ws ',' _ (by decide)]
    simp only [skipWs_space, skipWs_ser u, ih g u rest (by simp at hf; omega)]
    simp

theorem parseStrList_ser (l : List String) (f : Nat) (rest : List Char) (hf : l.length < f) :
    parseStrList f (serializeStrList l ++ rest) = some (l, rest) := by
  cases l with
  | nil =>
    simp only [serializeStrList, List.cons_append, List.nil_append]
    simp only [parseStrList]
    rw [skipWs_not_ws ']' rest (by decide)]
    simp
  | cons s t =>
    have hitems := parseStrListItems_ser t f s rest (by simp at hf; omega)
    simp only [serializeStrList, List.cons_append, List.append_assoc,
      List.singleton_append, List.nil_append] at hitems ⊢
    simp only [parseStrList]
    rw [show skipWs (serializeJString s ++
        ((t.map (fun v => ',' :: ' ' :: serializeJString v)).flatten ++ ']' :: rest)) =
        serializeJString s ++
        ((t.map (fun v => ',' :: ' ' :: serializeJString v)).flatten ++ ']' :: rest) from
      skipWs_ser s _]
    simp only [serializeJString, List.cons_append, List.append_assoc, List.nil_append,
      List.singleton_append] at hitems ⊢
    simp [hitems]

theorem parseRVal_str (f : Nat) (s : String) (x : List Char) :
    parseRVal f (serializeJString s ++ x) = some (RVal.str s, x) := by
  have hp := parseJString_ser s x
  simp only [serializeJString, List.cons_append, List.append_assoc, List.nil_append,
    List.singleton_append] at hp ⊢
  simp [parseRVal, hp]

theorem parseRVal_strs (f : Nat) (l : List String) (x : List Char) (hf : l.length < f) :
    parseRVal f (serializeStrList l ++ x) = some (RVal.strs l, x) := by
  have hp := parseStrList_ser l f x hf
  cases l with
  | nil =>
    simp only [serializeStrList, List.cons_append, List.nil_append] at hp ⊢
    simp [parseRVal, hp]
  | cons s t =>
    simp only [serializeStrList, List.cons_append, List.append_assoc, List.nil_append,
      List.singleton_append] at hp ⊢
    simp [parseRVal, hp]

theorem serializeJString_length_ge (s : String) : 2 ≤ (serializeJString s).length := by
  simp [serializeJString]

theorem serializeStrList_length_ge (l : List String) :
    l.length + 2 ≤ (serializeStrList l).length := by
  cases l with
  | nil => simp [serializeStrList]
  | cons s t =>
    have h2 : ∀ ts : List String,
        ts.length ≤ ((ts.map (fun v => ',' :: ' ' :: serializeJString v)).flatten).length := by
      intro ts
      induction ts with
      | nil => simp
      | cons a b ihb =>
        simp only [List.map_cons, List.flatten_cons, List.length_append, List.length_cons]
        have := serializeJString_length_ge a
        omega
    have h1 := serializeJString_length_ge s
    have h3 := h2 t
    simp only [serializeStrList, List.length_cons, List.length_append]
    omega

theorem serializeRequestChars_length_ge (r : Request) :
    r.args.length + 9 ≤ (serializeRequestChars r).length := by
  have h1 := serializeJString_length_ge "command"
  have h2 := serializeJString_length_ge r.command
  have h3 := serializeJString_length_ge "args"
  have h4 := serializeStrList_length_ge r.args
  simp only [serializeRequestChars, List.length_cons, List.length_append]
  omega

theorem skipWs_serList (l : List String) (x : List Char) :
    skipWs (serializeStrList l ++ x) = serializeStrList l ++ x := by
  cases l with
  | nil =>
    simp only [serializeStrList, List.cons_append, List.nil_append]
    exact skipWs_not_ws '[' _ (by decide)
  | cons a b =>
    simp only [serializeStrList, List.cons_append]
    exact skipWs_not_ws '[' _ (by decide)

theorem parseMembers_request (f : Nat) (cmd : String) (args : List String) (rest : List Char)
    (hf : args.length + 1 < f) :
    parseMembers (f + 1) (serializeJString "command" ++ (':' :: ' ' :: (serializeJString cmd ++
        (',' :: ' ' :: (serializeJString "args" ++ (':' :: ' ' ::
          (serializeStrList args ++ rbrace :: rest))))))) =
      some ([("command", RVal.str cmd), ("args", RVal.strs args)], rest) := by
  obtain ⟨g, rfl⟩ : ∃ g, f = g + 1 := ⟨f - 1, by omega⟩
  simp only [parseMembers, parseJString_ser "command"]
  rw [skipWs_not_ws ':' _ (by decide)]
  simp only [skipWs_space, skipWs_ser cmd, parseRVal_str (g + 1) cmd, reduceIte]
  rw [skipWs_not_ws ',' _ (by decide)]
  simp only [skipWs_space, skipWs_ser, parseJString_ser "args", reduceIte]
  rw [skipWs_not_ws ':' _ (by decide)]
  simp only [skipWs_space, skipWs_serList, reduceIte]
  rw [parseRVal_strs g args (rbrace :: rest) (by omega)]
  simp only [skipWs_not_ws rbrace rest (by decide)]
  simp only [if_neg (by decide : ¬ rbrace = ','), if_pos (rfl : rbrace = rbrace)]
  simp

theorem parseTopObject_request (r : Request) :
    parseTopObject (serializeRequestChars r) =
      some [("command", RVal.str r.command), ("args", RVal.strs r.args)] := by
  have hcmdk : serializeJString "command" =
      '\"' :: 'c' :: 'o' :: 'm' :: 'm' :: 'a' :: 'n' :: 'd' :: '\"' :: [] := by decide
  have hargk : serializeJString "args" =
      '\"' :: 'a' :: 'r' :: 'g' :: 's' :: '\"' :: [] := by decide
  simp only [parseTopObject]
  set N := (serializeRequestChars r).length with hNdef
  have hlen := serializeRequestChars_length_ge r
  rw [← hNdef] at hlen
  have hmem := parseMembers_request (N - 1) r.command r.args [] (by omega)
  rw [show N - 1 + 1 = N from by omega] at hmem
  simp only [serializeRequestChars, List.append_assoc, List.cons_append]
  rw [skipWs_not_ws lbrace _ (by decide)]
  simp only [reduceIte]
  rw [skipWs_ser]
  simp only [hcmdk, hargk, List.cons_append, List.append_assoc, List.nil_append] at hmem ⊢
  simp only [if_neg (by decide : ¬ ('\"' : Char) = rbrace)]
  rw [hmem]
  simp [skipWs]

theorem parseRequestChars_ser (r : Request) :
    parseRequestChars (serializeRequestChars r) = some r := by
  rcases r with ⟨cmd, args⟩
  simp only [parseRequestChars, parseTopObject_request]
  simp [reqOfObj, extractCommand, extractArgs, dictGet]

theorem hex4_ascii (m : Nat) (d : Char) (hd : d ∈ hex4 m) : d.toNat < 128 := by
  simp only [hex4, List.mem_cons, List.not_mem_nil, or_false] at hd
  rcases hd with h | h | h | h <;> subst h <;>
    exact hexDig_ascii _ (Nat.mod_lt _ (by norm_num))

theorem escapeChar_ascii (c : Char) : ∀ d ∈ escapeChar c, d.toNat < 128 := by
  by_cases hq : c = '\"'
  · rw [show escapeChar c = ['\\', '\"'] from by simp [escapeChar, hq]]
    decide
  by_cases hb : c = '\\'
  · rw [show escapeChar c = ['\\', '\\'] from by simp [escapeChar, hq, hb]]
    decide
  by_cases h8 : c.toNat = 8
  · rw [show escapeChar c = ['\\', 'b'] from by simp [escapeChar, hq, hb, h8]]
    decide
  by_cases h9 : c.toNat = 9
  · rw [show escapeChar c = ['\\', 't'] from by simp [escapeChar, hq, hb, h8, h9]]
    decide
  by_cases h10 : c.toNat = 10
  · rw [show escapeChar c = ['\\', 'n'] from by simp [escapeChar, hq, hb, h8, h9, h10]]
    decide
  by_cases h12 : c.toNat = 12
  · rw [show escapeChar c = ['\\', 'f'] from by simp [escapeChar, hq, hb, h8, h9, h10, h12]]
    decide
  by_cases h13 : c.toNat = 13
  · rw [show escapeChar c = ['\\', 'r'] from by
      simp [escapeChar, hq, hb, h8, h9, h10, h12, h13]]
    decide
  by_cases hctl : c.toNat < 32
  · rw [show escapeChar c = '\\' :: 'u' :: hex4 c.toNat from by
      simp [escapeChar, hq, hb, h8, h9, h10, h12, h13, hctl]]
    intro d hd
    simp only [List.mem_cons] at hd
    rcases hd with rfl | rfl | hd
    · decide
    · decide
    · exact hex4_ascii _ d hd
  by_cases hprint : c.toNat < 127
  · rw [show escapeChar c = [c] from by
      simp [escapeChar, hq, hb, h8, h9, h10, h12, h13, hctl, hprint]]
    intro d hd
    simp only [List.mem_cons, List.not_mem_nil, or_false] at hd
    subst hd
    omega
  by_cases hbmp : c.toNat < 65536
  · rw [show escapeChar c = '\\' :: 'u' :: hex4 c.toNat from by
      simp [escapeChar, hq, hb, h8, h9, h10, h12, h13, hctl, hprint, hbmp]]
    intro d hd
    simp only [List.mem_cons] at hd
    rcases hd with rfl | rfl | hd
    · decide
    · decide
    · exact hex4_ascii _ d hd
  · rw [show escapeChar c = '\\' :: 'u' :: hex4 (55296 + (c.toNat - 65536) / 1024) ++
        ('\\' :: 'u' :: hex4 (56320 + (c.toNat - 65536) % 1024)) from by
      simp [escapeChar, hq, hb, h8, h9, h10, h12, h13, hctl, hprint, hbmp]]
    intro d hd
    simp only [List.cons_append, List.mem_cons, List.mem_append] at hd
    rcases hd with rfl | rfl | hd | rfl | rfl | hd
    · decide
    · decide
    · exact hex4_ascii _ d hd
    · decide
    · decide
    · exact hex4_ascii _ d hd

theorem serializeJString_ascii (s : String) : ∀ d ∈ serializeJString s, d.toNat < 128 := by
  intro d hd
  simp only [serializeJString, List.mem_cons, List.mem_append, List.mem_flatten, List.mem_map,
    List.not_mem_nil, or_false] at hd
  rcases hd with rfl | ⟨l, ⟨c, _, rfl⟩, hdl⟩ | rfl
  · decide
  · exact escapeChar_ascii c d hdl
  · decide

theorem serializeStrList_ascii (l : List String) : ∀ d ∈ serializeStrList l, d.toNat < 128 := by
  cases l with
  | nil =>
    intro d hd
    simp only [serializeStrList, List.mem_cons, List.not_mem_nil, or_false] at hd
    rcases hd with rfl | rfl <;> decide
  | cons s t =>
    intro d hd
    simp only [serializeStrList, List.mem_cons, List.mem_append, List.mem_flatten,
      List.mem_map, List.not_mem_nil, or_false] at hd
    rcases hd with rfl | hd | ⟨x, ⟨u, _, rfl⟩, hdx⟩ | rfl
    · decide
    · exact serializeJString_ascii s d hd
    · simp only [List.mem_cons] at hdx
      rcases hdx with rfl | rfl | hdx
      · decide
      · decide
      · exact serializeJString_ascii u d hdx
    · decide

theorem serializeRequestChars_ascii (r : Request) :
    ∀ d ∈ serializeRequestChars r, d.toNat < 128 := by
  intro d hd
  simp only [serializeRequestChars, List.append_assoc, List.cons_append, List.mem_cons,
    List.mem_append, List.not_mem_nil, or_false] at hd
  rcases hd with rfl | hd | rfl | rfl | hd | rfl | rfl | hd | rfl | rfl | hd | rfl
  · decide
  · exact serializeJString_ascii "command" d hd
  · decide
  · decide
  · exact serializeJString_ascii r.command d hd
  · decide
  · decide
  · exact serializeJString_ascii "args" d hd
  · decide
  · decide
  · exact serializeStrList_ascii r.args d hd
  · decide

theorem asciiDecode_ser (r : Request) :
    asciiDecode (serializeRequestBytes r) = some (serializeRequestChars r) := by
  have hall : ((serializeRequestChars r).map Char.toNat).all
      (fun b => decide (b < 128)) = true := by
    rw [List.all_eq_true]
    intro b hb
    simp only [List.mem_map] at hb
    obtain ⟨c, hc, rfl⟩ := hb
    simpa using serializeRequestChars_ascii r c hc
  simp only [serializeRequestBytes, asciiDecode, hall, if_true]
  rw [List.map_map, show Char.ofNat ∘ Char.toNat = id from funext Char.ofNat_toNat,
    List.map_id]

theorem parseRequestBytes_ser (r : Request) :
    parseRequestBytes (serializeRequestBytes r) = some r := by
  simp only [parseRequestBytes, asciiDecode_ser r, parseRequestChars_ser r]

theorem take8_of_len8 (a b : List Nat) (h : a.length = 8) : (a ++ b).take 8 = a := by
  rw [← h, List.take_left]

theorem drop8_of_len8 (a b : List Nat) (h : a.length = 8) : (a ++ b).drop 8 = b := by
  rw [← h, List.drop_left]

theorem beBytes_natToBe8 (L : Nat) (h : L < 10000000) : beBytes (natToBe 8 L) = L := by
  rw [beBytes_natToBe]
  exact Nat.mod_eq_of_lt (lt_trans h (by norm_num))

theorem commitsFramed_encode (r : Request) (sched : List Nat)
    (hpos : 0 < (serializeRequestBytes r).length)
    (hceil : (serializeRequestBytes r).length < 10000000) :
    commitsFramed ⟨encodeFramedRequest r, sched⟩ = true := by
  have hlen8 := natToBe_length 8 (serializeRequestBytes r).length
  simp only [commitsFramed, peek8, encodeFramedRequest,
    take8_of_len8 _ _ hlen8, beBytes_natToBe8 _ hceil]
  simp [hlen8, hpos, hceil]

theorem readFramed_encode (r : Request) (sched : List Nat)
    (hceil : (serializeRequestBytes r).length < 10000000) :
    readFramed ⟨encodeFramedRequest r, sched⟩ = some (serializeRequestBytes r) := by
  have hlen8 := natToBe_length 8 (serializeRequestBytes r).length
  have hdlen : (encodeFramedRequest r).length = 8 + (serializeRequestBytes r).length := by
    simp [encodeFramedRequest, List.length_append, hlen8]
  obtain ⟨c2, hread8, hc2⟩ := readExactly_spec 8 ⟨encodeFramedRequest r, sched⟩
    (by rw [hdlen]; omega)
  have htake : (encodeFramedRequest r).take 8 =
      natToBe 8 (serializeRequestBytes r).length := by
    simp only [encodeFramedRequest]
    exact take8_of_len8 _ _ hlen8
  have hc2' : c2.data = serializeRequestBytes r := by
    rw [hc2]
    simp only [encodeFramedRequest]
    exact drop8_of_len8 _ _ hlen8
  obtain ⟨c3, hreadL, _⟩ := readExactly_spec (serializeRequestBytes r).length c2
    (by rw [hc2'])
  simp only [readFramed, hread8, htake, beBytes_natToBe8 _ hceil, hreadL, hc2',
    List.take_length]

theorem decodeFramed_encode (r : Request) (sched : List Nat)
    (hpos : 0 < (serializeRequestBytes r).length)
    (hceil : (serializeRequestBytes r).length < 10000000) :
    decodeFramedRequest ⟨encodeFramedRequest r, sched⟩ = some r := by
  simp only [decodeFramedRequest, commitsFramed_encode r sched hpos hceil, if_true,
    readFramed_encode r sched hceil, parseRequestBytes_ser r]


theorem dictGet_map_const_mem (k : String) {α : Type} (v : α) (l : List String) (f : α)
    (h : dictGet k (l.map (fun n => (n, v))) = some f) : k ∈ l := by
  induction l with
  | nil => simp [dictGet] at h
  | cons a t ih =>
    simp only [List.map_cons, dictGet] at h
    by_cases hak : a = k
    · simp [hak]
    · simp only [hak, if_false] at h
      exact List.mem_cons_of_mem _ (ih h)

/-! ## Claim theorems -/

/-- C1: for every incoming connection, the handler peeks (without consuming)
the first 8 bytes, interprets them as a big-endian unsigned length, and
commits to framed mode exactly when that value is strictly between 0 and
10,000,000; in framed mode it then consumes the 8-byte prefix and reads
exactly that many payload bytes — for every chunking schedule, i.e. even
when a single read returns fewer bytes than requested — before parsing the
payload as JSON. -/
theorem framed_protocol_detection (c : Conn) :
    (commitsFramed c = true ↔
      8 ≤ c.data.length ∧ 0 < beBytes (c.data.take 8) ∧
        beBytes (c.data.take 8) < 10000000) ∧
    (commitsFramed c = true →
      8 + beBytes (c.data.take 8) ≤ c.data.length →
      readFramed c = some ((c.data.drop 8).take (beBytes (c.data.take 8))) ∧
      decodeFramedRequest c =
        parseRequestBytes ((c.data.drop 8).take (beBytes (c.data.take 8)))) := by
  have hiff : commitsFramed c = true ↔
      8 ≤ c.data.length ∧ 0 < beBytes (c.data.take 8) ∧
        beBytes (c.data.take 8) < 10000000 := by
    simp only [commitsFramed, peek8, Bool.and_eq_true, decide_eq_true_eq]
    constructor
    · rintro ⟨⟨h1, h2⟩, h3⟩
      refine ⟨?_, h2, h3⟩
      have := List.length_take 8 c.data
      omega
    · rintro ⟨h1, h2, h3⟩
      refine ⟨⟨?_, h2⟩, h3⟩
      simp [List.length_take]
      omega
  refine ⟨hiff, fun hcom hlen => ?_⟩
  obtain ⟨c2, hread8, hc2⟩ := readExactly_spec 8 c (by omega)
  obtain ⟨c3, hreadL, _⟩ := readExactly_spec (beBytes (c.data.take 8)) c2
    (by rw [hc2, List.length_drop]; omega)
  have hframed : readFramed c =
      some ((c.data.drop 8).take (beBytes (c.data.take 8))) := by
    simp only [readFramed, hread8, hreadL, hc2]
  refine ⟨hframed, ?_⟩
  simp only [decodeFramedRequest, hcom, if_true, hframed]

/-- Witness for C1 at a concrete connection: ten pending bytes announcing a
2-byte payload, delivered through an adversarial chunking schedule. -/
theorem framed_protocol_detection_witness :
    commitsFramed ⟨[0, 0, 0, 0, 0, 0, 0, 2, 123, 125], [1, 3, 2, 5, 1, 1, 1, 1]⟩ = true ∧
    readFramed ⟨[0, 0, 0, 0, 0, 0, 0, 2, 123, 125], [1, 3, 2, 5, 1, 1, 1, 1]⟩ =
      some [123, 125] := by
  have h := framed_protocol_detection ⟨[0, 0, 0, 0, 0, 0, 0, 2, 123, 125],
    [1, 3, 2, 5, 1, 1, 1, 1]⟩
  have hcom := h.1.mpr (by decide)
  exact ⟨hcom, (h.2 hcom (by decide)).1⟩

/-- C2: for every registered command name and every argument list, an
exception raised by the invoked handler is caught at the dispatch boundary
and converted into a response with success = false and an error field
carrying the exception's textual description; dispatch returns normally
(its result type is total), so the exception never propagates. -/
theorem handler_exception_contained (reg : Registry) (m : Manager) (command : String)
    (args : List String) (f : Handler) (e : String) (mres : Manager)
    (hf : dictGet command reg = some f) (he : f m args = (Except.error e, mres)) :
    handle_command reg m command args =
      ([("success", JVal.jbool false), ("error", JVal.jstr e)], mres) := by
  simp [handle_command, hf, he]

/-- Witness for C2: a handler that raises `boom` yields the structured
failure response. -/
theorem handler_exception_contained_witness :
    handle_command [("explode", exFailingHandler)] exManager0 "explode" [] =
      ([("success", JVal.jbool false), ("error", JVal.jstr "boom")], exManager0) :=
  handler_exception_contained [("explode", exFailingHandler)] exManager0 "explode" []
    exFailingHandler "boom" exManager0 rfl rfl

/-- C3: for every name present in the process-handle table, stop requests
graceful termination first, waits up to the configured termination timeout,
escalates to a forceful kill when the process ignores termination past the
timeout, and the name is unconditionally absent from the handle table
afterward — for every behaviour of the child, including termination itself
raising an error. -/
theorem stop_process_contract (m : Manager) (beh : StopBehavior) (name : String)
    (h : (dictGet name m.processes).isSome = true) :
    dictGet name (stop_process m beh name).1.processes = none ∧
    (stop_process m beh name).2.head? = some StopAction.terminate ∧
    (beh = StopBehavior.ignoresTerm →
      (stop_process m beh name).2 =
        [StopAction.terminate, StopAction.wait m.termination_timeout, StopAction.kill]) ∧
    (beh = StopBehavior.exitsInTime →
      (stop_process m beh name).2 =
        [StopAction.terminate, StopAction.wait m.termination_timeout]) := by
  simp only [stop_process, h, if_true]
  refine ⟨dictGet_remove_self name m.processes, ?_, ?_, ?_⟩ <;> cases beh <;> simp

/-- Witness for C3: a process that ignores graceful termination is killed
and its name leaves the handle table. -/
theorem stop_process_contract_witness :
    dictGet "n" (stop_process exManagerN StopBehavior.ignoresTerm "n").1.processes = none ∧
    (stop_process exManagerN StopBehavior.ignoresTerm "n").2 =
      [StopAction.terminate, StopAction.wait 5, StopAction.kill] := by
  have h := stop_process_contract exManagerN StopBehavior.ignoresTerm "n" rfl
  exact ⟨h.1, h.2.2.1 rfl⟩

/-- C4 counterexample: registering the same name twice does not fail and
does not leave the first registration in place — the second registration
silently overwrites the first (`commands/bash.py:98` is a plain dict
assignment with no presence check, and no `DuplicateNameError` exists in
the code). -/
theorem register_duplicate_counterexample :
    dictGet "bash-sleep-101"
        (bash_register (bash_register exManager0 "bash-sleep-101" ⟨101⟩ [])
          "bash-sleep-101" ⟨202⟩ []).processes = some ⟨202⟩ ∧
    (⟨202⟩ : Proc) ≠ ⟨101⟩ := by
  exact ⟨rfl, by decide⟩

/-- C4 amended: registration of a process name is total — it never raises —
and a second registration of the same name before any removal silently
replaces the first in both the handle map and the metadata map (last
registration wins); name collisions are avoided only by the pid suffix
appended at `commands/bash.py:81`. -/
theorem register_same_name_overwrites (m : Manager) (n : String) (p1 p2 : Proc)
    (i1 i2 : List (String × JVal)) :
    dictGet n (bash_register (bash_register m n p1 i1) n p2 i2).processes = some p2 ∧
    dictGet n (bash_register (bash_register m n p1 i1) n p2 i2).process_info = some i2 := by
  simp [bash_register, dictGet_insert_self]

/-- C5: a request whose command string is not a key of the registry yields
success = false with error `Unknown command: ` followed by the name. -/
theorem unknown_command_response (reg : Registry) (m : Manager) (command : String)
    (args : List String) (h : dictGet command reg = none) :
    handle_command reg m command args =
      ([("success", JVal.jbool false),
        ("error", JVal.jstr ("Unknown command: " ++ command))], m) := by
  simp [handle_command, h]

/-- Witness for C5: the `bogus` scenario against a registry with the
server's command names. -/
theorem unknown_command_response_witness :
    handle_command exRegistryFull exManager0 "bogus" [] =
      ([("success", JVal.jbool false),
        ("error", JVal.jstr "Unknown command: bogus")], exManager0) :=
  unknown_command_response exRegistryFull exManager0 "bogus" [] rfl

/-- C6: for every request whose JSON payload length is strictly between 0
and the 10,000,000 sanity ceiling, decoding the framed encoding of the
request yields the original request, for every chunking schedule of the
underlying reads. -/
theorem framed_codec_roundtrip (r : Request) (sched : List Nat)
    (hpos : 0 < (serializeRequestBytes r).length)
    (hceil : (serializeRequestBytes r).length < 10000000) :
    decodeFramedRequest ⟨encodeFramedRequest r, sched⟩ = some r :=
  decodeFramed_encode r sched hpos hceil

/-- Witness for C6 at the concrete request `status` with chunked reads. -/
theorem framed_codec_roundtrip_witness :
    decodeFramedRequest ⟨encodeFramedRequest ⟨"status", []⟩, [5, 1, 3, 7, 2, 100]⟩ =
      some ⟨"status", []⟩ :=
  framed_codec_roundtrip ⟨"status", []⟩ [5, 1, 3, 7, 2, 100] (by decide) (by decide)

/-- C7 counterexample: after `stop_process` on a registered name, the
handle map no longer contains the name but the metadata map still does —
`stop_process` (launch-manager.py:307) deletes only `self.processes[name]`
and never touches `self.process_info`. -/
theorem stop_metadata_retained_counterexample :
    dictGet "n" (stop_process exManagerN StopBehavior.exitsInTime "n").1.processes = none ∧
    (dictGet "n" (stop_process exManagerN StopBehavior.exitsInTime "n").1.process_info).isSome
      = true := by
  exact ⟨rfl, rfl⟩

/-- C7 amended: for every name present in the handle table, stopping it
removes the name from the handle map only; the metadata map is left exactly
unchanged (so post-mortem status queries still find the entry, as section 3
of the spec requires). -/
theorem stop_process_removes_handle_only (m : Manager) (beh : StopBehavior) (name : String)
    (h : (dictGet name m.processes).isSome = true) :
    dictGet name (stop_process m beh name).1.processes = none ∧
    (stop_process m beh name).1.process_info = m.process_info := by
  simp only [stop_process, h, if_true]
  exact ⟨dictGet_remove_self name m.processes, trivial⟩

/-- Witness for the amended C7 at a concrete manager. -/
theorem stop_process_removes_handle_only_witness :
    dictGet "n" (stop_process exManagerN (StopBehavior.raisesOnWait "err") "n").1.processes
      = none ∧
    (stop_process exManagerN (StopBehavior.raisesOnWait "err") "n").1.process_info =
      exManagerN.process_info := by
  have h := stop_process_removes_handle_only exManagerN (StopBehavior.raisesOnWait "err")
    "n" rfl
  exact ⟨h.1, h.2⟩

/-- C9: a well-formed request object lacking the `command` key is
dispatched as the empty command string, which is not a registered name, so
the response is success = false with error `Unknown command: `; a request
object lacking the `args` key is dispatched with the empty argument list. -/
theorem missing_request_keys (reg : Registry) (m : Manager) (obj : List (String × RVal))
    (hkeys : ∀ k f, dictGet k reg = some f → k ∈ serverCommandNames) :
    (dictGet "command" obj = none →
      extractCommand obj = "" ∧
      handle_command reg m (extractCommand obj) (extractArgs obj) =
        ([("success", JVal.jbool false), ("error", JVal.jstr "Unknown command: ")], m)) ∧
    (dictGet "args" obj = none → extractArgs obj = []) := by
  constructor
  · intro hc
    have hcmd : extractCommand obj = "" := by simp [extractCommand, hc]
    refine ⟨hcmd, ?_⟩
    have hnone : dictGet "" reg = none := by
      cases hreg : dictGet "" reg with
      | none => rfl
      | some f => exact absurd (hkeys "" f hreg) (by decide)
    rw [hcmd]
    simp [handle_command, hnone]
  · intro ha
    simp [extractArgs, ha]

/-- Witness for C9 at the empty request object against a registry with the
server's command names. -/
theorem missing_request_keys_witness :
    extractCommand ([] : List (String × RVal)) = "" ∧
    handle_command exRegistryFull exManager0 (extractCommand ([] : List (String × RVal)))
        (extractArgs ([] : List (String × RVal))) =
      ([("success", JVal.jbool false), ("error", JVal.jstr "Unknown command: ")],
        exManager0) ∧
    extractArgs ([] : List (String × RVal)) = [] := by
  have h := missing_request_keys exRegistryFull exManager0 []
    (fun k f hk => dictGet_map_const_mem k exHandlerOk serverCommandNames f hk)
  exact ⟨(h.1 rfl).1, (h.1 rfl).2, h.2 rfl⟩

/-- C10: for every name not present in the process-handle table,
stop_process returns without performing any action on any handle and
leaves the manager state — both the handle map and the metadata map —
completely unchanged. -/
theorem stop_process_absent_noop (m : Manager) (beh : StopBehavior) (name : String)
    (h : dictGet name m.processes = none) :
    stop_process m beh name = (m, []) := by
  simp [stop_process, h]

/-- Witness for C10 at a concrete absent name. -/
theorem stop_process_absent_noop_witness :
    stop_process exManagerN StopBehavior.exitsInTime "ghost" = (exManagerN, []) :=
  stop_process_absent_noop exManagerN StopBehavior.exitsInTime "ghost" rfl

end ClaudeController
